import Mathlib

/-!
Verification development for the `import-dynamodb-local` repository.

The repository contains two scripts:
* `import-dynamodb-local` (the unnamed main script): copies a DynamoDB table's
  schema and a bounded sample of its items from a remote account into a local
  DynamoDB instance (describe → create-if-absent → scan → chunked batch-write);
* `get-vars.js`: walks a CloudFormation stack (recursively through nested
  stacks), collecting the environment variables of every Lambda function into
  a single merged map (last write wins).

Every definition below is a shallow embedding of the corresponding JavaScript
function; the external AWS services are modelled as environments (oracles)
supplying the outcome of each API call, and each script's behaviour is the
list of API calls it issues plus its final reported outcome.
-/

set_option linter.unusedVariables false

namespace ImportDynamoDBLocal

/-! ### Arithmetic helper: ceiling division (used only to state properties) -/

/-- Ceiling division on naturals: `ceilDiv a b = ⌈a / b⌉` for `b ≥ 1`. -/
def ceilDiv (a b : Nat) : Nat := (a + b - 1) / b

theorem ceilDiv_zero_left (b : Nat) : ceilDiv 0 b = 0 := by
  unfold ceilDiv
  rcases Nat.eq_zero_or_pos b with hb | hb
  · simp [hb]
  · exact Nat.div_eq_of_lt (by omega)

theorem ceilDiv_of_pos {a b : Nat} (hb : 1 ≤ b) (ha : 1 ≤ a) :
    ceilDiv a b = (a - 1) / b + 1 := by
  unfold ceilDiv
  have h : a + b - 1 = (a - 1) + b := by omega
  rw [h, Nat.add_div_right _ (by omega)]

theorem ceilDiv_eq_one {a b : Nat} (ha : 1 ≤ a) (hab : a ≤ b) : ceilDiv a b = 1 := by
  rw [ceilDiv_of_pos (by omega) ha, Nat.div_eq_of_lt (by omega)]

theorem le_mul_ceilDiv (a : Nat) {b : Nat} (hb : 1 ≤ b) : a ≤ b * ceilDiv a b := by
  rcases Nat.eq_zero_or_pos a with ha | ha
  · simp [ha]
  · rw [ceilDiv_of_pos hb ha]
    have hdm := Nat.div_add_mod (a - 1) b
    have hmlt : (a - 1) % b < b := Nat.mod_lt _ (by omega)
    rw [Nat.mul_add, Nat.mul_one]
    generalize hq : (a - 1) / b = q at hdm
    generalize hm : (a - 1) % b = m at hdm hmlt
    generalize hA : b * q = A at hdm
    omega

theorem mul_ceilDiv_le (a : Nat) {b : Nat} (hb : 1 ≤ b) :
    b * ceilDiv a b ≤ a + (b - 1) := by
  rcases Nat.eq_zero_or_pos a with ha | ha
  · subst ha; rw [ceilDiv_zero_left]; omega
  · rw [ceilDiv_of_pos hb ha, Nat.mul_add, Nat.mul_one]
    have h : b * ((a - 1) / b) ≤ a - 1 := by
      calc b * ((a - 1) / b) = (a - 1) / b * b := Nat.mul_comm _ _
        _ ≤ a - 1 := Nat.div_mul_le_self _ _
    omega

theorem ceilDiv_sub_self {a b : Nat} (hb : 1 ≤ b) (hab : b < a) :
    ceilDiv a b = ceilDiv (a - b) b + 1 := by
  rw [ceilDiv_of_pos hb (by omega), ceilDiv_of_pos hb (by omega)]
  have h : a - 1 = (a - b - 1) + b := by omega
  rw [h, Nat.add_div_right _ (by omega)]

/-! ### `chunkArray` (source lines 68–72)

```js
function* chunkArray(arr, stride = 1) {
  for (let i = 0; i < arr.length; i += stride) {
    yield arr.slice(i, Math.min(i + stride, arr.length));
  }
}
```

The generator is embedded as the eager list of all produced chunks.
`arr.slice(i, min(i + stride, arr.length))` is `(arr.drop i).take stride`;
advancing `i` by `stride` corresponds to recursing on `arr.drop stride`.
The recursion is driven by a fuel argument so that the definition is
structural (and hence evaluable by the kernel); for `stride ≥ 1` a fuel of
`arr.length` is always sufficient, which the congruence lemma below makes
precise.  For `stride = 0` the source generator does not terminate
(undefined behaviour per its caller's contract); the fuel then merely
truncates the infinite stream of empty chunks, and no theorem below is
stated about `chunkArray` at stride `0`.
-/

def chunkArrayAux (stride : Nat) : Nat → List α → List (List α)
  | 0, _ => []
  | _ + 1, [] => []
  | fuel + 1, a :: l => (a :: l).take stride :: chunkArrayAux stride fuel ((a :: l).drop stride)

def chunkArray (arr : List α) (stride : Nat) : List (List α) :=
  chunkArrayAux stride arr.length arr

theorem chunkArrayAux_nil (stride : Nat) :
    ∀ fuel, chunkArrayAux stride fuel ([] : List α) = []
  | 0 => rfl
  | _ + 1 => rfl

theorem chunkArrayAux_congr {stride : Nat} (hs : 1 ≤ stride) :
    ∀ (f g : Nat) (arr : List α), arr.length ≤ f → arr.length ≤ g →
      chunkArrayAux stride f arr = chunkArrayAux stride g arr := by
  intro f
  induction f with
  | zero =>
    intro g arr hf hg
    have : arr = [] := List.eq_nil_of_length_eq_zero (by omega)
    subst this
    rw [chunkArrayAux_nil, chunkArrayAux_nil]
  | succ f ih =>
    intro g arr hf hg
    match arr with
    | [] => rw [chunkArrayAux_nil, chunkArrayAux_nil]
    | a :: l =>
      match g, hg with
      | g + 1, hg =>
        show (a :: l).take stride :: chunkArrayAux stride f ((a :: l).drop stride)
            = (a :: l).take stride :: chunkArrayAux stride g ((a :: l).drop stride)
        have hd : ((a :: l).drop stride).length = (a :: l).length - stride :=
          List.length_drop _ _
        have h1 : ((a :: l).drop stride).length ≤ f := by
          simp only [List.length_cons] at hf hd ⊢; omega
        have h2 : ((a :: l).drop stride).length ≤ g := by
          simp only [List.length_cons] at hg hd ⊢; omega
        rw [ih _ _ h1 h2]

theorem chunkArray_nil (stride : Nat) : chunkArray ([] : List α) stride = [] := rfl

/-- One-step unfolding of `chunkArray` for a non-empty input and stride ≥ 1. -/
theorem chunkArray_cons_eq {arr : List α} {stride : Nat} (hs : 1 ≤ stride)
    (hne : arr ≠ []) :
    chunkArray arr stride = arr.take stride :: chunkArray (arr.drop stride) stride := by
  match arr, hne with
  | a :: l, _ =>
    have hlen : ((a :: l).drop stride).length ≤ l.length := by
      simp only [List.length_drop, List.length_cons]; omega
    show chunkArrayAux stride (l.length + 1) (a :: l) = _
    show (a :: l).take stride :: chunkArrayAux stride l.length ((a :: l).drop stride)
        = (a :: l).take stride ::
            chunkArrayAux stride ((a :: l).drop stride).length ((a :: l).drop stride)
    rw [chunkArrayAux_congr hs l.length ((a :: l).drop stride).length
      ((a :: l).drop stride) hlen le_rfl]

/-! ### The bounded-import loop (source lines 100–125)

```js
async function importRemoteDataToLocalDynamoDB(items) {
  const stride = limit > 25 ? 25 : limit;
  const itemChunks = chunkArray(items, stride);
  let limitCounter = 0;
  for (const items of itemChunks) {
    const putRequests = items.map((item) => ({ PutRequest: { Item: item } }));
    const batchWriteCommand = new BatchWriteItemCommand({ ... });
    await dynamodbLocalDocClient.send(batchWriteCommand);
    limitCounter += items.length;
    if (limitCounter >= limit) { break; }
  }
}
```

`consumeChunks` is the `for … of` loop over the generated chunks: each
consumed chunk is one issued `BatchWriteItemCommand`, and the loop breaks
as soon as the running counter reaches the limit (the breaking chunk is
still written).  The function returns the list of issued batch payloads in
order.  Consuming the eager `chunkArray` list coincides with consuming the
lazy generator because the loop only ever inspects a prefix of the chunks
(at stride 0 — reachable only at `limit = 0` — the first chunk is empty and
the counter `0` already satisfies `0 ≥ limit`, so only one chunk is pulled).
-/

def consumeChunks (limit : Nat) : List (List α) → Nat → List (List α)
  | [], _ => []
  | c :: cs, counter =>
    if limit ≤ counter + c.length then [c]
    else c :: consumeChunks limit cs (counter + c.length)

/-- `limit > 25 ? 25 : limit` (source line 104). -/
def strideFor (limit : Nat) : Nat := if limit > 25 then 25 else limit

/-- The list of batch-write payloads issued by
`importRemoteDataToLocalDynamoDB(items)` under the configured `limit`. -/
def importRemoteDataToLocalDynamoDB (items : List α) (limit : Nat) : List (List α) :=
  consumeChunks limit (chunkArray items (strideFor limit)) 0

/-- Total number of items written across all issued batch-write calls. -/
def totalItemsWritten (batches : List (List α)) : Nat :=
  (batches.map List.length).sum

/-! ### Properties of `chunkArray` (C3) -/

theorem chunkArray_ne_nil {arr : List α} {stride : Nat} (hs : 1 ≤ stride)
    (hne : arr ≠ []) : chunkArray arr stride ≠ [] := by
  rw [chunkArray_cons_eq hs hne]
  exact List.cons_ne_nil _ _

theorem chunkArray_length {stride : Nat} (hs : 1 ≤ stride) (arr : List α) :
    (chunkArray arr stride).length = ceilDiv arr.length stride := by
  suffices h : ∀ (n : Nat) (arr : List α), arr.length ≤ n →
      (chunkArray arr stride).length = ceilDiv arr.length stride from
    h arr.length arr le_rfl
  intro n
  induction n with
  | zero =>
    intro arr h
    have : arr = [] := List.eq_nil_of_length_eq_zero (by omega)
    subst this
    simp [chunkArray_nil, ceilDiv_zero_left]
  | succ n ih =>
    intro arr h
    by_cases hne : arr = []
    · subst hne; simp [chunkArray_nil, ceilDiv_zero_left]
    · have hlen1 : 1 ≤ arr.length := by
        cases arr with
        | nil => exact absurd rfl hne
        | cons a l => simp
      have hdl : (arr.drop stride).length = arr.length - stride := List.length_drop _ _
      rw [chunkArray_cons_eq hs hne, List.length_cons, ih _ (by omega)]
      by_cases hcase : arr.length ≤ stride
      · have h0 : (arr.drop stride).length = 0 := by omega
        rw [h0, ceilDiv_zero_left, ceilDiv_eq_one hlen1 hcase]
      · rw [hdl, ceilDiv_sub_self hs (by omega : stride < arr.length)]

theorem chunkArray_flatten {stride : Nat} (hs : 1 ≤ stride) (arr : List α) :
    (chunkArray arr stride).flatten = arr := by
  suffices h : ∀ (n : Nat) (arr : List α), arr.length ≤ n →
      (chunkArray arr stride).flatten = arr from h arr.length arr le_rfl
  intro n
  induction n with
  | zero =>
    intro arr h
    have : arr = [] := List.eq_nil_of_length_eq_zero (by omega)
    subst this
    simp [chunkArray_nil]
  | succ n ih =>
    intro arr h
    by_cases hne : arr = []
    · subst hne; simp [chunkArray_nil]
    · have hdl : (arr.drop stride).length = arr.length - stride := List.length_drop _ _
      have hlen1 : 1 ≤ arr.length := by
        cases arr with
        | nil => exact absurd rfl hne
        | cons a l => simp
      rw [chunkArray_cons_eq hs hne, List.flatten_cons, ih _ (by omega)]
      exact List.take_append_drop _ _

theorem chunkArray_dropLast_length {stride : Nat} (hs : 1 ≤ stride) (arr : List α) :
    ∀ c ∈ (chunkArray arr stride).dropLast, c.length = stride := by
  suffices h : ∀ (n : Nat) (arr : List α), arr.length ≤ n →
      ∀ c ∈ (chunkArray arr stride).dropLast, c.length = stride from
    h arr.length arr le_rfl
  intro n
  induction n with
  | zero =>
    intro arr h
    have : arr = [] := List.eq_nil_of_length_eq_zero (by omega)
    subst this
    simp [chunkArray_nil]
  | succ n ih =>
    intro arr h
    by_cases hne : arr = []
    · subst hne; simp [chunkArray_nil]
    · have hdl : (arr.drop stride).length = arr.length - stride := List.length_drop _ _
      have hlen1 : 1 ≤ arr.length := by
        cases arr with
        | nil => exact absurd rfl hne
        | cons a l => simp
      rw [chunkArray_cons_eq hs hne]
      by_cases hdrop : arr.drop stride = []
      · rw [hdrop, chunkArray_nil]
        simp
      · have hslt : stride < arr.length := by
          by_contra hcon
          exact hdrop (List.eq_nil_of_length_eq_zero (by omega))
        rw [List.dropLast_cons_of_ne_nil (chunkArray_ne_nil hs hdrop)]
        intro c hc
        rcases List.mem_cons.mp hc with hc | hc
        · subst hc
          rw [List.length_take]
          omega
        · exact ih (arr.drop stride) (by omega) c hc

theorem chunkArray_getLast_length {stride : Nat} (hs : 1 ≤ stride) (arr : List α) :
    ∀ c, (chunkArray arr stride).getLast? = some c →
      c.length = if arr.length % stride = 0 then stride else arr.length % stride := by
  suffices h : ∀ (n : Nat) (arr : List α), arr.length ≤ n →
      ∀ c, (chunkArray arr stride).getLast? = some c →
        c.length = if arr.length % stride = 0 then stride else arr.length % stride from
    h arr.length arr le_rfl
  intro n
  induction n with
  | zero =>
    intro arr h c hc
    have : arr = [] := List.eq_nil_of_length_eq_zero (by omega)
    subst this
    rw [chunkArray_nil] at hc
    exact absurd hc (by simp)
  | succ n ih =>
    intro arr h c hc
    by_cases hne : arr = []
    · subst hne
      rw [chunkArray_nil] at hc
      exact absurd hc (by simp)
    · have hdl : (arr.drop stride).length = arr.length - stride := List.length_drop _ _
      have hlen1 : 1 ≤ arr.length := by
        cases arr with
        | nil => exact absurd rfl hne
        | cons a l => simp
      rw [chunkArray_cons_eq hs hne] at hc
      by_cases hdrop : arr.drop stride = []
      · have h0 : (arr.drop stride).length = 0 := by rw [hdrop]; rfl
        have hle : arr.length ≤ stride := by omega
        rw [hdrop, chunkArray_nil] at hc
        simp only [List.getLast?_singleton, Option.some.injEq] at hc
        subst hc
        rw [List.length_take]
        rcases Nat.lt_or_ge arr.length stride with hlt | hge
        · rw [if_neg (by rw [Nat.mod_eq_of_lt hlt]; omega), Nat.mod_eq_of_lt hlt]
          omega
        · have heq : arr.length = stride := by omega
          rw [heq, if_pos (Nat.mod_self _)]
          omega
      · have hslt : stride < arr.length := by
          by_contra hcon
          exact hdrop (List.eq_nil_of_length_eq_zero (by omega))
        have hrest := chunkArray_ne_nil hs hdrop
        match hrw : chunkArray (arr.drop stride) stride, hrest with
        | b :: bs, _ =>
          rw [hrw, List.getLast?_cons_cons] at hc
          have := ih (arr.drop stride) (by omega) c (by rw [hrw]; exact hc)
          have hmod : (arr.drop stride).length % stride = arr.length % stride := by
            rw [hdl]
            have harr : arr.length = (arr.length - stride) + stride := by omega
            conv_rhs => rw [harr]
            rw [Nat.add_mod_right]
          rw [hmod] at this
          exact this

/--
C3: for every sequence of length N and stride S ≥ 1 the chunker produces
exactly `⌈N/S⌉` contiguous chunks in order, each of size S except the last
(which has size `N mod S`, or `S` when `S ∣ N`), and the chunks concatenate
back to the original sequence.
-/
theorem C3_chunker_contract {α : Type} (arr : List α) (S : Nat) (hS : 1 ≤ S) :
    (chunkArray arr S).length = ceilDiv arr.length S
  ∧ (chunkArray arr S).flatten = arr
  ∧ (∀ c ∈ (chunkArray arr S).dropLast, c.length = S)
  ∧ (∀ c, (chunkArray arr S).getLast? = some c →
      c.length = if arr.length % S = 0 then S else arr.length % S) :=
  ⟨chunkArray_length hS arr, chunkArray_flatten hS arr,
   chunkArray_dropLast_length hS arr, chunkArray_getLast_length hS arr⟩

theorem C3_chunker_contract_witness :
    (1 ≤ 2)
  ∧ ((chunkArray ([1,2,3,4,5] : List Nat) 2).length = ceilDiv ([1,2,3,4,5] : List Nat).length 2
  ∧ (chunkArray ([1,2,3,4,5] : List Nat) 2).flatten = [1,2,3,4,5]
  ∧ (∀ c ∈ (chunkArray ([1,2,3,4,5] : List Nat) 2).dropLast, c.length = 2)
  ∧ (∀ c, (chunkArray ([1,2,3,4,5] : List Nat) 2).getLast? = some c →
      c.length = if ([1,2,3,4,5] : List Nat).length % 2 = 0 then 2
                 else ([1,2,3,4,5] : List Nat).length % 2)) :=
  ⟨by decide, C3_chunker_contract [1,2,3,4,5] 2 (by decide)⟩

/-! ### Properties of the bounded import (C1, C2, C10) -/

theorem strideFor_pos {L : Nat} (hL : 1 ≤ L) : 1 ≤ strideFor L := by
  unfold strideFor; split <;> omega

theorem strideFor_le_25 (L : Nat) : strideFor L ≤ 25 := by
  unfold strideFor; split <;> omega

/--
The running item counts of the import loop are consecutive multiples of the
chunk stride while below the limit, so the first running count that reaches
or exceeds `L` (the quantity the spec calls `firstChunkCountReachingL`,
assuming enough items are available) is `stride * ⌈L / stride⌉`.
-/
def firstChunkCountReachingL (L : Nat) : Nat :=
  strideFor L * ceilDiv L (strideFor L)

/-- Total written by the import loop: all items until the first multiple of
the stride reaching the limit, clamped by the number of available items. -/
theorem consumeChunks_total {s L : Nat} (hs : 1 ≤ s) :
    ∀ (n : Nat) (arr : List α) (c : Nat), arr.length ≤ n → c < L →
      totalItemsWritten (consumeChunks L (chunkArray arr s) c)
        = min arr.length (s * ceilDiv (L - c) s) := by
  intro n
  induction n with
  | zero =>
    intro arr c h hc
    have : arr = [] := List.eq_nil_of_length_eq_zero (by omega)
    subst this
    simp [chunkArray_nil, consumeChunks, totalItemsWritten]
  | succ n ih =>
    intro arr c h hc
    by_cases hne : arr = []
    · subst hne; simp [chunkArray_nil, consumeChunks, totalItemsWritten]
    · have hlen1 : 1 ≤ arr.length := List.length_pos.mpr hne
      have htake : (arr.take s).length = min s arr.length := List.length_take _ _
      have hdl : (arr.drop s).length = arr.length - s := List.length_drop _ _
      rw [chunkArray_cons_eq hs hne]
      simp only [consumeChunks]
      by_cases hif : L ≤ c + (arr.take s).length
      · rw [if_pos hif]
        have hce : ceilDiv (L - c) s = 1 := ceilDiv_eq_one (by omega) (by omega)
        have htot : totalItemsWritten [arr.take s] = (arr.take s).length := by
          simp [totalItemsWritten]
        rw [htot, hce, Nat.mul_one]
        omega
      · rw [if_neg hif]
        have hc' : c + (arr.take s).length < L := by omega
        have hih := ih (arr.drop s) (c + (arr.take s).length) (by omega) hc'
        have htot : totalItemsWritten
            (arr.take s :: consumeChunks L (chunkArray (arr.drop s) s)
              (c + (arr.take s).length))
            = (arr.take s).length + totalItemsWritten
                (consumeChunks L (chunkArray (arr.drop s) s)
                  (c + (arr.take s).length)) := by
          simp [totalItemsWritten]
        rw [htot, hih, hdl]
        rcases le_or_lt arr.length s with hls | hsl
        · -- the whole remainder fits into this chunk; the recursion sees `[]`
          have hX := le_mul_ceilDiv (L - c) hs
          have harg : L - (c + (arr.take s).length) = L - c - (arr.take s).length := by
            omega
          generalize s * ceilDiv (L - c) s = X at hX ⊢
          generalize s * ceilDiv (L - (c + (arr.take s).length)) s = Y
          omega
        · -- a full chunk of `s` items is written and the loop continues
          have hts : (arr.take s).length = s := by omega
          rw [hts]
          have harg : L - (c + s) = L - c - s := by omega
          rw [harg]
          have hsub : ceilDiv (L - c) s = ceilDiv (L - c - s) s + 1 :=
            ceilDiv_sub_self hs (by omega)
          rw [hsub, Nat.mul_add, Nat.mul_one]
          generalize s * ceilDiv (L - c - s) s = Y
          omega

/-- The number of issued batch-write calls is the total written divided by
the stride, rounded up (every issued chunk is full except possibly the
last, which is non-empty). -/
theorem consumeChunks_count {s L : Nat} (hs : 1 ≤ s) :
    ∀ (n : Nat) (arr : List α) (c : Nat), arr.length ≤ n → c < L →
      (consumeChunks L (chunkArray arr s) c).length
        = ceilDiv (totalItemsWritten (consumeChunks L (chunkArray arr s) c)) s := by
  intro n
  induction n with
  | zero =>
    intro arr c h hc
    have : arr = [] := List.eq_nil_of_length_eq_zero (by omega)
    subst this
    simp [chunkArray_nil, consumeChunks, totalItemsWritten, ceilDiv_zero_left]
  | succ n ih =>
    intro arr c h hc
    by_cases hne : arr = []
    · subst hne
      simp [chunkArray_nil, consumeChunks, totalItemsWritten, ceilDiv_zero_left]
    · have hlen1 : 1 ≤ arr.length := List.length_pos.mpr hne
      have htake : (arr.take s).length = min s arr.length := List.length_take _ _
      have hdl : (arr.drop s).length = arr.length - s := List.length_drop _ _
      rw [chunkArray_cons_eq hs hne]
      simp only [consumeChunks]
      by_cases hif : L ≤ c + (arr.take s).length
      · rw [if_pos hif]
        have htot : totalItemsWritten [arr.take s] = (arr.take s).length := by
          simp [totalItemsWritten]
        rw [htot, ceilDiv_eq_one (by omega) (by omega)]
        rfl
      · rw [if_neg hif]
        rcases le_or_lt arr.length s with hls | hsl
        · -- the remainder fits in this chunk; the recursion sees `[]`
          have hdrop : arr.drop s = [] := List.eq_nil_of_length_eq_zero (by omega)
          rw [hdrop, chunkArray_nil]
          have htot : totalItemsWritten
              (arr.take s :: consumeChunks L ([] : List (List α))
                (c + (arr.take s).length)) = (arr.take s).length := by
            simp [consumeChunks, totalItemsWritten]
          rw [htot, ceilDiv_eq_one (by omega) (by omega)]
          rfl
        · have hts : (arr.take s).length = s := by omega
          rw [hts]
          have hc' : c + s < L := by omega
          have hih := ih (arr.drop s) (c + s) (by omega) hc'
          have hT := consumeChunks_total hs (arr.drop s).length (arr.drop s)
            (c + s) le_rfl hc'
          have hT1 : 1 ≤ totalItemsWritten
              (consumeChunks L (chunkArray (arr.drop s) s) (c + s)) := by
            have hX := le_mul_ceilDiv (L - (c + s)) hs
            generalize s * ceilDiv (L - (c + s)) s = X at hX hT
            omega
          have htot : totalItemsWritten
              (arr.take s :: consumeChunks L (chunkArray (arr.drop s) s) (c + s))
              = (arr.take s).length + totalItemsWritten
                  (consumeChunks L (chunkArray (arr.drop s) s) (c + s)) := by
            simp [totalItemsWritten]
          rw [List.length_cons, htot, hih, hts]
          generalize totalItemsWritten
            (consumeChunks L (chunkArray (arr.drop s) s) (c + s)) = T at hT1 ⊢
          have hsub : ceilDiv (s + T) s = ceilDiv (s + T - s) s + 1 :=
            ceilDiv_sub_self hs (by omega)
          have harg : s + T - s = T := by omega
          rw [hsub, harg]

/--
C2: for limit L ≥ 1 and an item list of length N, the bounded import issues
exactly `⌈min(firstChunkCountReachingL, N) / 25⌉` write-batch calls, the
total written is ≥ L whenever N ≥ L, equals N when N < L, and never exceeds
L by more than 24.
-/
theorem C2_bounded_import {α : Type} (items : List α) (L : Nat) (hL : 1 ≤ L) :
    (importRemoteDataToLocalDynamoDB items L).length
        = ceilDiv (min (firstChunkCountReachingL L) items.length) 25
  ∧ (L ≤ items.length →
      L ≤ totalItemsWritten (importRemoteDataToLocalDynamoDB items L))
  ∧ (items.length < L →
      totalItemsWritten (importRemoteDataToLocalDynamoDB items L) = items.length)
  ∧ totalItemsWritten (importRemoteDataToLocalDynamoDB items L) ≤ L + 24 := by
  have hs := strideFor_pos hL
  have hs25 := strideFor_le_25 L
  have h0L : (0 : Nat) < L := hL
  have htot := consumeChunks_total (s := strideFor L) hs items.length items 0 le_rfl h0L
  have hcnt := consumeChunks_count (s := strideFor L) hs items.length items 0 le_rfl h0L
  rw [Nat.sub_zero] at htot
  have hfc : firstChunkCountReachingL L = strideFor L * ceilDiv L (strideFor L) := rfl
  rw [← hfc] at htot
  have hfcge : L ≤ firstChunkCountReachingL L := by
    rw [hfc]; exact le_mul_ceilDiv L hs
  have hfcle : firstChunkCountReachingL L ≤ L + 24 := by
    rw [hfc]
    have := mul_ceilDiv_le L hs
    omega
  simp only [importRemoteDataToLocalDynamoDB]
  refine ⟨?_, by omega, by omega, by omega⟩
  rw [hcnt]
  have hmin : min (firstChunkCountReachingL L) items.length
      = totalItemsWritten (consumeChunks L (chunkArray items (strideFor L)) 0) := by
    omega
  rw [hmin]
  by_cases h25 : L > 25
  · have hsv : strideFor L = 25 := by unfold strideFor; rw [if_pos h25]
    rw [hsv]
  · have hsv : strideFor L = L := by unfold strideFor; rw [if_neg h25]
    have hone : ceilDiv L L = 1 := ceilDiv_eq_one hL le_rfl
    have hFL : firstChunkCountReachingL L = L := by
      rw [hfc, hsv, hone, Nat.mul_one]
    generalize totalItemsWritten
      (consumeChunks L (chunkArray items (strideFor L)) 0) = T at htot ⊢
    rw [hsv]
    rcases Nat.eq_zero_or_pos T with hT0 | hT1
    · rw [hT0, ceilDiv_zero_left, ceilDiv_zero_left]
    · have hTle : T ≤ L := by omega
      rw [ceilDiv_eq_one hT1 hTle, ceilDiv_eq_one hT1 (by omega)]

theorem C2_bounded_import_witness :
    (1 ≤ 30)
  ∧ ((importRemoteDataToLocalDynamoDB (List.range 40) 30).length
        = ceilDiv (min (firstChunkCountReachingL 30) (List.range 40).length) 25
  ∧ (30 ≤ (List.range 40).length →
      30 ≤ totalItemsWritten (importRemoteDataToLocalDynamoDB (List.range 40) 30))
  ∧ ((List.range 40).length < 30 →
      totalItemsWritten (importRemoteDataToLocalDynamoDB (List.range 40) 30)
        = (List.range 40).length)
  ∧ totalItemsWritten (importRemoteDataToLocalDynamoDB (List.range 40) 30) ≤ 30 + 24) :=
  ⟨by decide, C2_bounded_import (List.range 40) 30 (by decide)⟩

/--
C10: for a limit L with 1 ≤ L ≤ 25 and a non-empty item list, the
bounded import issues exactly one batch-write call with `min(N, L)` items,
and the total written never exceeds L (no overshoot is possible below the
25-item ceiling, since the chunk stride then equals the limit itself).
-/
theorem C10_small_limit_single_batch {α : Type} (items : List α) (L : Nat)
    (h1 : 1 ≤ L) (h25 : L ≤ 25) (hne : items ≠ []) :
    importRemoteDataToLocalDynamoDB items L = [items.take L]
  ∧ totalItemsWritten (importRemoteDataToLocalDynamoDB items L)
      = min items.length L
  ∧ totalItemsWritten (importRemoteDataToLocalDynamoDB items L) ≤ L := by
  have hsL : strideFor L = L := by unfold strideFor; rw [if_neg (by omega)]
  have htake : (items.take L).length = min L items.length := List.length_take _ _
  have hlen1 : 1 ≤ items.length := List.length_pos.mpr hne
  have hmain : importRemoteDataToLocalDynamoDB items L = [items.take L] := by
    unfold importRemoteDataToLocalDynamoDB
    rw [hsL, chunkArray_cons_eq h1 hne]
    simp only [consumeChunks]
    by_cases hif : L ≤ 0 + (items.take L).length
    · rw [if_pos hif]
    · rw [if_neg hif]
      have hdrop : items.drop L = [] := List.eq_nil_of_length_eq_zero (by
        rw [List.length_drop]; omega)
      rw [hdrop, chunkArray_nil]
      rfl
  have htot : totalItemsWritten [items.take L] = (items.take L).length := by
    simp [totalItemsWritten]
  refine ⟨hmain, ?_, ?_⟩
  · rw [hmain, htot]; omega
  · rw [hmain, htot]; omega

theorem C10_small_limit_single_batch_witness :
    ((1 ≤ 5) ∧ (5 ≤ 25) ∧ ([1,2,3] : List Nat) ≠ [])
  ∧ (importRemoteDataToLocalDynamoDB ([1,2,3] : List Nat) 5 = [[1,2,3].take 5]
  ∧ totalItemsWritten (importRemoteDataToLocalDynamoDB ([1,2,3] : List Nat) 5)
      = min ([1,2,3] : List Nat).length 5
  ∧ totalItemsWritten (importRemoteDataToLocalDynamoDB ([1,2,3] : List Nat) 5) ≤ 5) :=
  ⟨⟨by decide, by decide, by decide⟩,
   C10_small_limit_single_batch [1,2,3] 5 (by decide) (by decide) (by decide)⟩

/--
C1 (code bug): with the configured limit 0 the import is NOT unbounded.
The caller computes `stride = limit > 25 ? 25 : limit`, which is 0 at
limit 0 — violating the chunker's `stride ≥ 1` precondition rather than
guarding it.  The generator's first chunk is then empty and the running
counter 0 already satisfies `0 ≥ limit`, so the loop issues a single
batch-write containing zero items and stops: nothing is imported, although
the CLI's own help text promises "set to 0 to export and import all items".
This theorem evaluates the embedding at the failing input (one item,
limit 0): one empty batch, zero items written, stride 0.
-/
theorem C1_limit_zero_writes_nothing :
    importRemoteDataToLocalDynamoDB ([0] : List Nat) 0 = [[]]
  ∧ totalItemsWritten (importRemoteDataToLocalDynamoDB ([0] : List Nat) 0) = 0
  ∧ strideFor 0 = 0 := by
  exact ⟨rfl, rfl, rfl⟩

/-! ### The table-existence check (source lines 82–93, C4)

```js
async function getTableDescriptionInfo(tableName, documentClient) {
  try {
    const describeTableCommand = new DescribeTableCommand({ TableName: tableName });
    return await documentClient.send(describeTableCommand);
  } catch (err) {
    if (err.name === 'ResourceNotFoundException') { return null; }
    throw err;
  }
}
```

The service call is modelled by its outcome: either the describe response
(whose `Table` field holds the schema descriptor, of an abstract type `σ`)
or a thrown error carrying its `name`.  Returning `null` is `Except.ok
none`; rethrowing is `Except.error`.
-/

deriving instance DecidableEq for Except

/-- A thrown AWS SDK error, identified (as in the source) by its `name`. -/
structure AwsError where
  name : String
deriving DecidableEq

/-- A `DescribeTable` response: its `Table` field is the schema descriptor
(abstract type `σ`), passed verbatim to `CreateTableCommand` by the caller. -/
structure DescribeTableOutput (σ : Type) where
  Table : σ
deriving DecidableEq

def getTableDescriptionInfo {σ : Type}
    (response : Except AwsError (DescribeTableOutput σ)) :
    Except AwsError (Option (DescribeTableOutput σ)) :=
  match response with
  | .ok desc => .ok (some desc)
  | .error err =>
    if err.name = "ResourceNotFoundException" then .ok none else .error err

/--
C4: the existence check returns the schema descriptor when the describe
call succeeds, returns the explicit absent signal (`ok none`, not an error)
exactly when the service reports `ResourceNotFoundException`, and
propagates every other failure unchanged.
-/
theorem C4_existence_check {σ : Type}
    (r : Except AwsError (DescribeTableOutput σ)) :
    (∀ d, r = .ok d → getTableDescriptionInfo r = .ok (some d))
  ∧ (getTableDescriptionInfo r = .ok none ↔
      ∃ e, r = .error e ∧ e.name = "ResourceNotFoundException")
  ∧ (∀ e, r = .error e → e.name ≠ "ResourceNotFoundException" →
      getTableDescriptionInfo r = .error e) := by
  refine ⟨?_, ?_, ?_⟩
  · intro d hd
    subst hd
    rfl
  · constructor
    · intro h
      match r with
      | .ok d => simp [getTableDescriptionInfo] at h
      | .error e =>
        refine ⟨e, rfl, ?_⟩
        by_contra hname
        simp [getTableDescriptionInfo, hname] at h
    · rintro ⟨e, rfl, hname⟩
      simp [getTableDescriptionInfo, hname]
  · intro e he hname
    subst he
    simp [getTableDescriptionInfo, hname]

theorem C4_existence_check_witness :
    getTableDescriptionInfo (σ := Unit)
      (.error ⟨"ResourceNotFoundException"⟩) = .ok none
  ∧ getTableDescriptionInfo (σ := Unit)
      (.error ⟨"AccessDeniedException"⟩) = .error ⟨"AccessDeniedException"⟩
  ∧ getTableDescriptionInfo (σ := Unit) (.ok ⟨()⟩) = .ok (some ⟨()⟩) :=
  ⟨(C4_existence_check (.error ⟨"ResourceNotFoundException"⟩)).2.1.mpr
      ⟨⟨"ResourceNotFoundException"⟩, rfl, rfl⟩,
   (C4_existence_check (.error ⟨"AccessDeniedException"⟩)).2.2
      ⟨"AccessDeniedException"⟩ rfl (by decide),
   (C4_existence_check (.ok ⟨()⟩)).1 ⟨()⟩ rfl⟩

/-! ### The replicator orchestration (source lines 131–165, C5, C6, C7)

```js
async function exportAndImportDynamoDBTable() {
  try {
    const remoteTableDescription = await getTableDescriptionInfo(tableName, dynamodbDocClient);
    if (!remoteTableDescription) {
      throw new Error(`Table "${tableName}" does not exist in the remote DynamoDB, ...`);
    }
    const localTableDescription = await getTableDescriptionInfo(tableName, dynamodbLocalDocClient);
    if (!localTableDescription) {
      const createTableCommand = new CreateTableCommand(remoteTableDescription.Table);
      await dynamodbLocalDocClient.send(createTableCommand);
    }
    const scanCommand = new ScanCommand({ TableName: tableName });
    const tableData = await dynamodbClient.send(scanCommand);
    if (!tableData.Items || !tableData.Items.length) {
      return console.log(`Table ${tableName} is empty, ...`);
    }
    await importRemoteDataToLocalDynamoDB(tableData.Items);
    console.log(`Table "${tableName}" exported ... successfully!`);
  } catch (err) { console.error(err); }
}
```

The run is modelled as a function of an environment holding the outcome of
each external call; it returns the ordered list of issued API calls
together with the reported outcome (which log line was reached, or which
error the top-level `catch` received).  Batch-write sends are modelled as
succeeding: a batch-write failure would truncate the issued-call list and
turn the outcome into `caughtError`, which none of the claims below
quantify over.
-/

/-- The API calls the replicator can issue, in issue order.  `σ` is the
schema-descriptor type, `α` the item type. -/
inductive ApiCall (σ α : Type)
  | describeRemote
  | describeLocal
  | createTable (schema : σ)
  | scan
  | batchWrite (chunk : List α)
deriving DecidableEq

/-- The error caught by the top-level `catch`: either the script's own
curated `Error` for a missing source table, or a propagated AWS error. -/
inductive ScriptError
  | missingRemoteTable (tableName : String)
  | aws (e : AwsError)
deriving DecidableEq

/-- The `message` of the caught error (the curated text for the script's
own `Error`, the error name for a propagated AWS error object). -/
def scriptErrorMessage : ScriptError → String
  | .missingRemoteTable tn =>
      "Table \"" ++ tn ++
        "\" does not exist in the remote DynamoDB, Please create the table first before exporting and importing it to local DynamoDB."
  | .aws e => e.name

/-- How the run ends: which final log line was reached, or which error the
top-level `catch` logged. -/
inductive RunOutcome
  | emptyTableLog (tableName : String)
  | importedLog (tableName : String)
  | caughtError (e : ScriptError)
deriving DecidableEq

/-- Outcomes of the external calls the replicator performs.  `scanResult`'s
payload is the optional `Items` field of the scan response (`none` models
an absent `Items` field, which the source treats like an empty one). -/
structure ReplicatorEnv (σ α : Type) where
  remoteDescribe : Except AwsError (DescribeTableOutput σ)
  localDescribe : Except AwsError (DescribeTableOutput σ)
  createTableResult : Except AwsError Unit
  scanResult : Except AwsError (Option (List α))

def exportAndImportDynamoDBTable {σ α : Type} (tableName : String) (limit : Nat)
    (env : ReplicatorEnv σ α) : List (ApiCall σ α) × RunOutcome :=
  match getTableDescriptionInfo env.remoteDescribe with
  | .error e => ([.describeRemote], .caughtError (.aws e))
  | .ok none => ([.describeRemote], .caughtError (.missingRemoteTable tableName))
  | .ok (some remoteTableDescription) =>
    match getTableDescriptionInfo env.localDescribe with
    | .error e => ([.describeRemote, .describeLocal], .caughtError (.aws e))
    | .ok localTableDescription =>
      let createCalls : List (ApiCall σ α) :=
        match localTableDescription with
        | none => [.createTable remoteTableDescription.Table]
        | some _ => []
      let createOutcome : Except AwsError Unit :=
        match localTableDescription with
        | none => env.createTableResult
        | some _ => .ok ()
      match createOutcome with
      | .error e =>
        ([.describeRemote, .describeLocal] ++ createCalls, .caughtError (.aws e))
      | .ok _ =>
        match env.scanResult with
        | .error e =>
          ([.describeRemote, .describeLocal] ++ createCalls ++ [.scan],
           .caughtError (.aws e))
        | .ok none =>
          ([.describeRemote, .describeLocal] ++ createCalls ++ [.scan],
           .emptyTableLog tableName)
        | .ok (some []) =>
          ([.describeRemote, .describeLocal] ++ createCalls ++ [.scan],
           .emptyTableLog tableName)
        | .ok (some (i :: items)) =>
          ([.describeRemote, .describeLocal] ++ createCalls ++ [.scan] ++
            (importRemoteDataToLocalDynamoDB (i :: items) limit).map .batchWrite,
           .importedLog tableName)

def isCreateTableCall {σ α : Type} : ApiCall σ α → Bool
  | .createTable _ => true
  | _ => false

def isBatchWriteCall {σ α : Type} : ApiCall σ α → Bool
  | .batchWrite _ => true
  | _ => false

theorem filter_isCreate_map_batchWrite {σ α : Type} (cs : List (List α)) :
    (cs.map (ApiCall.batchWrite (σ := σ))).filter isCreateTableCall = [] := by
  induction cs with
  | nil => rfl
  | cons c cs ih => simp [isCreateTableCall, ih]

/--
C5: whenever the local describe reports the table present no create-table
call is issued, and whenever it reports the table absent create-table is
called exactly once, with the remote table's schema descriptor unchanged.
-/
theorem C5_create_table_policy {σ α : Type} (tn : String) (L : Nat)
    (env : ReplicatorEnv σ α) (rd : DescribeTableOutput σ)
    (hremote : getTableDescriptionInfo env.remoteDescribe = .ok (some rd)) :
    (∀ ld, getTableDescriptionInfo env.localDescribe = .ok (some ld) →
      (exportAndImportDynamoDBTable tn L env).1.filter isCreateTableCall = [])
  ∧ (getTableDescriptionInfo env.localDescribe = .ok none →
      (exportAndImportDynamoDBTable tn L env).1.filter isCreateTableCall
        = [.createTable rd.Table]) := by
  constructor
  · intro ld hlocal
    simp only [exportAndImportDynamoDBTable, hremote, hlocal]
    rcases hsc : env.scanResult with e | op
    · simp [isCreateTableCall]
    · rcases op with _ | its
      · simp [isCreateTableCall]
      · rcases its with _ | ⟨i, its⟩
        · simp [isCreateTableCall]
        · simp [isCreateTableCall, filter_isCreate_map_batchWrite]
  · intro hlocal
    simp only [exportAndImportDynamoDBTable, hremote, hlocal]
    rcases hcre : env.createTableResult with e | u
    · simp [isCreateTableCall]
    · rcases hsc : env.scanResult with e | op
      · simp [isCreateTableCall]
      · rcases op with _ | its
        · simp [isCreateTableCall]
        · rcases its with _ | ⟨i, its⟩
          · simp [isCreateTableCall]
          · simp [isCreateTableCall, filter_isCreate_map_batchWrite]

def c5env : ReplicatorEnv Nat Nat :=
  ⟨.ok ⟨7⟩, .error ⟨"ResourceNotFoundException"⟩, .ok (), .ok (some [1, 2])⟩

theorem C5_create_table_policy_witness :
    getTableDescriptionInfo c5env.remoteDescribe = .ok (some ⟨7⟩)
  ∧ getTableDescriptionInfo c5env.localDescribe = .ok none
  ∧ (exportAndImportDynamoDBTable "users" 500 c5env).1.filter isCreateTableCall
      = [.createTable 7] :=
  ⟨by decide, by decide,
   (C5_create_table_policy "users" 500 c5env ⟨7⟩ (by decide)).2 (by decide)⟩

/--
C6: when the remote describe reports the source table absent, the run fails
with the curated human-readable error instructing the operator to create
the table first, and no create-table, scan, or batch-write call is issued.
-/
theorem C6_missing_remote_table {σ α : Type} (tn : String) (L : Nat)
    (env : ReplicatorEnv σ α)
    (hremote : getTableDescriptionInfo env.remoteDescribe = .ok none) :
    exportAndImportDynamoDBTable tn L env
      = ([.describeRemote], .caughtError (.missingRemoteTable tn))
  ∧ (∀ c ∈ (exportAndImportDynamoDBTable tn L env).1,
      isCreateTableCall c = false ∧ c ≠ .scan ∧ isBatchWriteCall c = false)
  ∧ scriptErrorMessage (.missingRemoteTable tn)
      = "Table \"" ++ tn ++
          "\" does not exist in the remote DynamoDB, Please create the table first before exporting and importing it to local DynamoDB." := by
  have hrun : exportAndImportDynamoDBTable tn L env
      = ([.describeRemote], .caughtError (.missingRemoteTable tn)) := by
    simp only [exportAndImportDynamoDBTable, hremote]
  refine ⟨hrun, ?_, rfl⟩
  rw [hrun]
  intro c hc
  simp only [List.mem_singleton] at hc
  subst hc
  refine ⟨rfl, ?_, rfl⟩
  intro h
  exact ApiCall.noConfusion h

def c6env : ReplicatorEnv Nat Nat :=
  ⟨.error ⟨"ResourceNotFoundException"⟩, .ok ⟨7⟩, .ok (), .ok (some [1])⟩

theorem C6_missing_remote_table_witness :
    getTableDescriptionInfo c6env.remoteDescribe = .ok none
  ∧ exportAndImportDynamoDBTable "users" 500 c6env
      = ([.describeRemote], .caughtError (.missingRemoteTable "users")) :=
  ⟨by decide, (C6_missing_remote_table "users" 500 c6env (by decide)).1⟩

/--
C7: when the remote scan yields zero items (an absent or empty `Items`
field), zero batch-write calls are issued — so the local table's contents
are untouched — and the run reports success via the empty-table log line.
-/
theorem C7_empty_scan_no_writes {σ α : Type} (tn : String) (L : Nat)
    (env : ReplicatorEnv σ α) (rd : DescribeTableOutput σ)
    (lo : Option (DescribeTableOutput σ))
    (hremote : getTableDescriptionInfo env.remoteDescribe = .ok (some rd))
    (hlocal : getTableDescriptionInfo env.localDescribe = .ok lo)
    (hcreate : lo = none → env.createTableResult = .ok ())
    (hscan : env.scanResult = .ok none ∨ env.scanResult = .ok (some ([] : List α))) :
    (exportAndImportDynamoDBTable tn L env).1.filter isBatchWriteCall = []
  ∧ (exportAndImportDynamoDBTable tn L env).2 = .emptyTableLog tn := by
  rcases lo with _ | ld
  · have hcre := hcreate rfl
    rcases hscan with hsc | hsc <;>
      simp [exportAndImportDynamoDBTable, hremote, hlocal, hcre, hsc,
        isBatchWriteCall]
  · rcases hscan with hsc | hsc <;>
      simp [exportAndImportDynamoDBTable, hremote, hlocal, hsc, isBatchWriteCall]

def c7env : ReplicatorEnv Nat Nat :=
  ⟨.ok ⟨3⟩, .ok ⟨3⟩, .ok (), .ok (some [])⟩

theorem C7_empty_scan_no_writes_witness :
    getTableDescriptionInfo c7env.remoteDescribe = .ok (some ⟨3⟩)
  ∧ getTableDescriptionInfo c7env.localDescribe = .ok (some ⟨3⟩)
  ∧ ((exportAndImportDynamoDBTable "users" 500 c7env).1.filter isBatchWriteCall = []
  ∧ (exportAndImportDynamoDBTable "users" 500 c7env).2 = .emptyTableLog "users") :=
  ⟨by decide, by decide,
   C7_empty_scan_no_writes "users" 500 c7env ⟨3⟩ (some ⟨3⟩) (by decide) (by decide)
     (fun h => absurd h (by decide)) (Or.inr (by decide))⟩

/-! ### The env-var collector `get-vars.js` (C8, C9)

```js
async function listStackResources(stackName, nested = true) {
    let page = {};
    const stackResources = await cloudformation.listStackResources({ StackName: stackName });
    for (let resource of stackResources.StackResourceSummaries) {
        if (resource.ResourceType === 'AWS::CloudFormation::Stack' && nested) {
            let nestedStack = resource.PhysicalResourceId.split('/')[1];
            await listStackResources(nestedStack);
        }
        if (resource.ResourceType === 'AWS::Lambda::Function') {
            functionCount++;
            const lambdaConfig = await lambda.getFunctionConfiguration({ FunctionName: resource.PhysicalResourceId });
            if (lambdaConfig.Environment && lambdaConfig.Environment.Variables) {
                page[resource.LogicalResourceId] = lambdaConfig.Environment.Variables;
                merged = { ...merged, ...lambdaConfig.Environment.Variables };
            }
        }
    }
    console.log(`completed stack: ${stackName}`);
    console.log(`functionCount: ${functionCount}`);
    if (Object.keys(page).length !== 0) { stacks[stackName] = page; }
}
```

The CloudFormation/Lambda services are an environment mapping stack names
to resource lists and function physical IDs to their optional
`Environment.Variables`.  The global mutable state (`functionCount`,
`merged`, `stacks`) is threaded explicitly, and the observable behaviour
is an ordered trace of events: one `visitedLambda` event per Lambda
resource processed (carrying its variables, if declared) and one
`completedStack` event per finished stack (carrying the running function
count at the moment the summary is logged).

The traversal recurses through the service map, which terminates only for
acyclic stack graphs (as real CloudFormation stacks are); a fuel argument
bounds the recursion depth so the embedding is total, with one unit of
fuel consumed per nesting level.
-/

/-- JavaScript's `String.prototype.split('/')` on the underlying character
list: splits at every `'/'`, keeping empty segments. -/
def splitOnSlash : List Char → List (List Char)
  | [] => [[]]
  | c :: cs =>
    if c = '/' then [] :: splitOnSlash cs
    else
      match splitOnSlash cs with
      | [] => [[c]]
      | g :: gs => (c :: g) :: gs

/-- `resource.PhysicalResourceId.split('/')[1]` (source line 61): the child
stack name extracted from a nested-stack resource's physical ID.  `none`
models the `undefined` the source gets for an ID without `'/'` (the
subsequent service call then rejects the run; no claim reaches that case). -/
def childStackName (physicalId : String) : Option String :=
  ((splitOnSlash physicalId.toList).map (fun cs => String.mk cs)).get? 1

/-- One entry of `StackResourceSummaries`. -/
structure Resource where
  ResourceType : String
  PhysicalResourceId : String
  LogicalResourceId : String
deriving DecidableEq

/-- A Lambda function's `Environment.Variables` object, as ordered pairs. -/
abbrev VarList := List (String × String)

/-- The per-stack `page` object: logical resource ID → variables. -/
abbrev Page := List (String × VarList)

/-- The CloudFormation/Lambda service environment: `listStackResources`
responses by stack name and `getFunctionConfiguration` environment
variables by function physical ID (`none` models a configuration without
`Environment` or without `Environment.Variables`). -/
structure CfnEnv where
  stackResources : String → List Resource
  lambdaConfig : String → Option VarList

/-- Observable events of the traversal, in chronological order. -/
inductive TraceEvent
  | visitedLambda (stackName logicalId : String) (vars : Option VarList)
  | completedStack (stackName : String) (functionCount : Nat)
deriving DecidableEq

/-- The script's global mutable state (`functionCount`, `merged`,
`stacks`).  `merged` is modelled by its lookup function. -/
structure GvState where
  functionCount : Nat
  merged : String → Option String
  stacksMap : List (String × Page)

/-- `functionCount = 0; merged = {}; stacks = {}` (source lines 39–41). -/
def initialGvState : GvState := ⟨0, fun _ => none, []⟩

/-- Key lookup in a JavaScript object built from the ordered pairs `vars`
(on duplicate keys the later pair wins, as in object construction). -/
def jsObjLookup (vars : VarList) (k : String) : Option String :=
  (vars.reverse.find? (fun p => p.1 == k)).map (fun p => p.2)

/-- `merged = { ...merged, ...vars }`: keys of `vars` overwrite those of
`merged` (last write wins). -/
def spreadMerge (m : String → Option String) (vars : VarList) :
    String → Option String :=
  fun k =>
    match jsObjLookup vars k with
    | some v => some v
    | none => m k

/-- JavaScript property assignment `obj[k] = v` on an ordered-pair object:
overwrite in place if the key exists, else append. -/
def objSet {β : Type} (l : List (String × β)) (k : String) (v : β) :
    List (String × β) :=
  if l.any (fun p => p.1 == k) then
    l.map (fun p => if p.1 == k then (k, v) else p)
  else l ++ [(k, v)]

/-- The Lambda branch of the resource loop (source lines 65–73). -/
def processLambda (env : CfnEnv) (stackName : String) (r : Resource)
    (s : GvState) (page : Page) : GvState × Page × List TraceEvent :=
  if r.ResourceType = "AWS::Lambda::Function" then
    let s1 : GvState := { s with functionCount := s.functionCount + 1 }
    match env.lambdaConfig r.PhysicalResourceId with
    | some vars =>
      ({ s1 with merged := spreadMerge s1.merged vars },
       objSet page r.LogicalResourceId vars,
       [.visitedLambda stackName r.LogicalResourceId (some vars)])
    | none => (s1, page, [.visitedLambda stackName r.LogicalResourceId none])
  else (s, page, [])

/-- `if (Object.keys(page).length !== 0) stacks[stackName] = page`
(source lines 79–81). -/
def finalizeStack (stackName : String) (s : GvState) (page : Page) : GvState :=
  if page.isEmpty then s else { s with stacksMap := objSet s.stacksMap stackName page }


/-- One iteration of the `for (let resource of …)` loop: the nested-stack
branch (recursing via `runChild`) followed by the Lambda branch, returning
the updated state, page, and the events emitted for this resource. -/
def runStep (env : CfnEnv)
    (runChild : String → GvState → GvState × List TraceEvent)
    (stackName : String) (nested : Bool) (r : Resource)
    (s : GvState) (page : Page) : GvState × Page × List TraceEvent :=
  let nestRun : GvState × List TraceEvent :=
    if r.ResourceType = "AWS::CloudFormation::Stack" ∧ nested = true then
      match childStackName r.PhysicalResourceId with
      | some child => runChild child s
      | none => (s, [])
    else (s, [])
  let lam := processLambda env stackName r nestRun.1 page
  (lam.1, lam.2.1, nestRun.2 ++ lam.2.2)

/-- The resource loop, sequentially over the resource list, parameterised
by the recursive call used for nested stacks. -/
def runList (env : CfnEnv)
    (runChild : String → GvState → GvState × List TraceEvent)
    (stackName : String) (nested : Bool) :
    List Resource → GvState → Page → GvState × Page × List TraceEvent
  | [], s, page => (s, page, [])
  | r :: rest, s, page =>
    let st := runStep env runChild stackName nested r s page
    let rest' := runList env runChild stackName nested rest st.1 st.2.1
    (rest'.1, rest'.2.1, st.2.2 ++ rest'.2.2)

/-- `listStackResources(stackName, nested = true)` (source lines 54–82):
returns the final state and the event trace.  Recursive calls pass
`nested = true`, exactly as the source's default parameter does.  The fuel
bounds the nesting depth (the source recursion is unbounded and terminates
only on acyclic stack graphs). -/
def listStackResources (env : CfnEnv) :
    Nat → String → Bool → GvState → GvState × List TraceEvent
  | 0, _, _, s => (s, [])
  | fuel + 1, stackName, nested, s =>
    let r := runList env (fun c st => listStackResources env fuel c true st)
      stackName nested (env.stackResources stackName) s []
    (finalizeStack stackName r.1 r.2.1,
     r.2.2 ++ [.completedStack stackName r.1.functionCount])

/-- `runStep` on a nested-stack resource with a well-formed physical ID:
the child run happens first and the Lambda branch does not fire. -/
theorem runStep_nested (env : CfnEnv)
    (runChild : String → GvState → GvState × List TraceEvent)
    (stackName : String) (r : Resource) (s : GvState) (page : Page) (C : String)
    (hty : r.ResourceType = "AWS::CloudFormation::Stack")
    (hchild : childStackName r.PhysicalResourceId = some C) :
    runStep env runChild stackName true r s page
      = ((processLambda env stackName r (runChild C s).1 page).1,
         (processLambda env stackName r (runChild C s).1 page).2.1,
         (runChild C s).2
           ++ (processLambda env stackName r (runChild C s).1 page).2.2) := by
  simp only [runStep]
  rw [if_pos ⟨hty, by trivial⟩, hchild]

/-! ### The merged map is the fold of the visited variable lists (C8) -/

/-- The variable list a trace event contributes to `merged`, if any. -/
def eventVars : TraceEvent → Option VarList
  | .visitedLambda _ _ (some vs) => some vs
  | _ => none

/-- The variable lists merged into the global map, in visit order. -/
def varsOfTrace (tr : List TraceEvent) : List VarList := tr.filterMap eventVars

theorem varsOfTrace_append (a b : List TraceEvent) :
    varsOfTrace (a ++ b) = varsOfTrace a ++ varsOfTrace b :=
  List.filterMap_append a b eventVars

theorem processLambda_merged (env : CfnEnv) (stackName : String) (r : Resource)
    (s : GvState) (page : Page) :
    ((processLambda env stackName r s page).1).merged
      = List.foldl spreadMerge s.merged
          (varsOfTrace (processLambda env stackName r s page).2.2) := by
  unfold processLambda
  by_cases hty : r.ResourceType = "AWS::Lambda::Function"
  · rw [if_pos hty]
    rcases hcfg : env.lambdaConfig r.PhysicalResourceId with _ | vars <;>
      simp [hcfg, varsOfTrace, eventVars]
  · rw [if_neg hty]
    simp [varsOfTrace]

theorem runStep_merged (env : CfnEnv)
    (runChild : String → GvState → GvState × List TraceEvent)
    (stackName : String) (nested : Bool) (r : Resource)
    (s : GvState) (page : Page)
    (hchild : ∀ c st, ((runChild c st).1).merged
        = List.foldl spreadMerge st.merged (varsOfTrace (runChild c st).2)) :
    ((runStep env runChild stackName nested r s page).1).merged
      = List.foldl spreadMerge s.merged
          (varsOfTrace (runStep env runChild stackName nested r s page).2.2) := by
  simp only [runStep]
  by_cases hcond : r.ResourceType = "AWS::CloudFormation::Stack" ∧ nested = true
  · rw [if_pos hcond]
    rcases hcn : childStackName r.PhysicalResourceId with _ | child
    · show (processLambda env stackName r s page).1.merged
        = List.foldl spreadMerge s.merged
            (varsOfTrace (([] : List TraceEvent)
              ++ (processLambda env stackName r s page).2.2))
      rw [varsOfTrace_append, List.foldl_append]
      exact processLambda_merged env stackName r s page
    · show (processLambda env stackName r (runChild child s).1 page).1.merged
        = List.foldl spreadMerge s.merged
            (varsOfTrace ((runChild child s).2
              ++ (processLambda env stackName r (runChild child s).1 page).2.2))
      rw [varsOfTrace_append, List.foldl_append, ← hchild child s]
      exact processLambda_merged env stackName r (runChild child s).1 page
  · rw [if_neg hcond]
    rw [varsOfTrace_append, List.foldl_append]
    exact processLambda_merged env stackName r s page

theorem runList_merged (env : CfnEnv)
    (runChild : String → GvState → GvState × List TraceEvent)
    (stackName : String) (nested : Bool)
    (hchild : ∀ c st, ((runChild c st).1).merged
        = List.foldl spreadMerge st.merged (varsOfTrace (runChild c st).2)) :
    ∀ (rs : List Resource) (s : GvState) (page : Page),
      ((runList env runChild stackName nested rs s page).1).merged
        = List.foldl spreadMerge s.merged
            (varsOfTrace (runList env runChild stackName nested rs s page).2.2) := by
  intro rs
  induction rs with
  | nil => intro s page; simp [runList, varsOfTrace]
  | cons r rest ih =>
    intro s page
    simp only [runList]
    rw [varsOfTrace_append, List.foldl_append,
      ← runStep_merged env runChild stackName nested r s page hchild]
    exact ih (runStep env runChild stackName nested r s page).1
      (runStep env runChild stackName nested r s page).2.1

theorem listStackResources_merged (env : CfnEnv) :
    ∀ (fuel : Nat) (stackName : String) (nested : Bool) (s : GvState),
      ((listStackResources env fuel stackName nested s).1).merged
        = List.foldl spreadMerge s.merged
            (varsOfTrace (listStackResources env fuel stackName nested s).2) := by
  intro fuel
  induction fuel with
  | zero => intro stackName nested s; simp [listStackResources, varsOfTrace]
  | succ fuel ih =>
    intro stackName nested s
    simp only [listStackResources]
    have hfin : ∀ (st : GvState) (page : Page),
        (finalizeStack stackName st page).merged = st.merged := by
      intro st page
      unfold finalizeStack
      split <;> rfl
    rw [hfin, varsOfTrace_append]
    rw [show varsOfTrace [TraceEvent.completedStack stackName
        (runList env (fun c st => listStackResources env fuel c true st)
          stackName nested (env.stackResources stackName) s []).1.functionCount]
      = [] from rfl]
    rw [List.append_nil]
    exact runList_merged env _ stackName nested (fun c st => ih c true st)
      (env.stackResources stackName) s []

/-- First-`some` choice on options (the shape of a last-write-wins lookup). -/
def optOr (a b : Option String) : Option String :=
  match a with
  | some v => some v
  | none => b

/-- The value of the LAST variable list in `l` that defines `k`, if any. -/
def lastDefined (l : List VarList) (k : String) : Option String :=
  (l.filterMap (fun vs => jsObjLookup vs k)).getLast?

theorem foldl_spreadMerge_lookup (k : String) :
    ∀ (l : List VarList) (m : String → Option String),
      List.foldl spreadMerge m l k = optOr (lastDefined l k) (m k) := by
  intro l
  induction l with
  | nil => intro m; rfl
  | cons vs l ih =>
    intro m
    show List.foldl spreadMerge (spreadMerge m vs) l k = _
    rw [ih (spreadMerge m vs)]
    unfold lastDefined
    rw [List.filterMap_cons]
    rcases hv : jsObjLookup vs k with _ | v
    · have hsm : spreadMerge m vs k = m k := by unfold spreadMerge; rw [hv]
      rw [hsm]
    · have hsm : spreadMerge m vs k = some v := by unfold spreadMerge; rw [hv]
      rw [hsm]
      rcases hl : l.filterMap (fun vs => jsObjLookup vs k) with _ | ⟨w, ws⟩
      · rfl
      · rw [List.getLast?_cons_cons]
        rcases hgl : (w :: ws).getLast? with _ | x
        · rw [List.getLast?_eq_none_iff] at hgl
          exact absurd hgl (List.cons_ne_nil w ws)
        · rfl

/-- What a trace event contributes, as seen through key `X`: the event's
variable object's value for `X`, if the event carries one. -/
def definerFor (X : String) : TraceEvent → Option String
  | .visitedLambda _ _ (some vs) => jsObjLookup vs X
  | _ => none

theorem varsOf_definer (X : String) (tr : List TraceEvent) :
    (varsOfTrace tr).filterMap (fun vs => jsObjLookup vs X)
      = tr.filterMap (definerFor X) := by
  unfold varsOfTrace
  rw [List.filterMap_filterMap]
  congr 1
  funext e
  rcases e with ⟨st, lg, _ | vs⟩ | ⟨st, n⟩ <;> rfl

/--
C8: in a single-threaded traversal whose trace visits Lambda F1 (variables
`e1`) and later Lambda F2 (variables `e2`), both defining key X with
different values, and where no later-visited function defines X again, the
final merged map's value for X is F2's value — last write wins, in
depth-first stack-resource listing order.
-/
theorem C8_last_write_wins (env : CfnEnv) (fuel : Nat) (top : String)
    (pre mid post : List TraceEvent) (st1 st2 F1 F2 : String)
    (e1 e2 : VarList) (X v1 v2 : String)
    (htr : (listStackResources env fuel top true initialGvState).2
        = pre ++ [.visitedLambda st1 F1 (some e1)] ++ mid
            ++ [.visitedLambda st2 F2 (some e2)] ++ post)
    (h1 : jsObjLookup e1 X = some v1)
    (h2 : jsObjLookup e2 X = some v2)
    (hne : v1 ≠ v2)
    (hpost : ∀ ev ∈ post, definerFor X ev = none) :
    ((listStackResources env fuel top true initialGvState).1).merged X
      = some v2 := by
  rw [listStackResources_merged, foldl_spreadMerge_lookup]
  unfold lastDefined
  rw [varsOf_definer, htr]
  rw [List.filterMap_append, List.filterMap_append, List.filterMap_append,
    List.filterMap_append]
  have hp1 : List.filterMap (definerFor X)
      [TraceEvent.visitedLambda st1 F1 (some e1)] = [v1] := by
    simp [definerFor, h1]
  have hp2 : List.filterMap (definerFor X)
      [TraceEvent.visitedLambda st2 F2 (some e2)] = [v2] := by
    simp [definerFor, h2]
  have hp3 : List.filterMap (definerFor X) post = [] := by
    simp only [List.filterMap_eq_nil_iff]
    exact hpost
  rw [hp1, hp2, hp3, List.append_nil, List.getLast?_concat]
  rfl

/-! ### Child stacks complete before the parent's summary (C9) -/

theorem runList_trace_split (env : CfnEnv)
    (runChild : String → GvState → GvState × List TraceEvent)
    (stackName : String) (r : Resource) (C : String)
    (hty : r.ResourceType = "AWS::CloudFormation::Stack")
    (hchild : childStackName r.PhysicalResourceId = some C) :
    ∀ (rs₁ rs₂ : List Resource) (s : GvState) (page : Page),
      ∃ (s' : GvState) (pre post : List TraceEvent),
        (runList env runChild stackName true (rs₁ ++ r :: rs₂) s page).2.2
          = pre ++ (runChild C s').2 ++ post := by
  intro rs₁
  induction rs₁ with
  | nil =>
    intro rs₂ s page
    refine ⟨s, [],
      (processLambda env stackName r (runChild C s).1 page).2.2
        ++ (runList env runChild stackName true rs₂
              (processLambda env stackName r (runChild C s).1 page).1
              (processLambda env stackName r (runChild C s).1 page).2.1).2.2, ?_⟩
    simp only [List.nil_append, runList]
    rw [runStep_nested env runChild stackName r s page C hty hchild]
    simp [List.append_assoc]
  | cons a rs₁ ih =>
    intro rs₂ s page
    simp only [List.cons_append, runList]
    obtain ⟨s', pre, post, heq⟩ := ih rs₂
      (runStep env runChild stackName true a s page).1
      (runStep env runChild stackName true a s page).2.1
    refine ⟨s', (runStep env runChild stackName true a s page).2.2 ++ pre,
      post, ?_⟩
    have hcast : rs₁.append (r :: rs₂) = rs₁ ++ r :: rs₂ := rfl
    rw [hcast, heq]
    simp [List.append_assoc]

theorem runList_visits (env : CfnEnv)
    (runChild : String → GvState → GvState × List TraceEvent)
    (stackName : String) (nested : Bool) :
    ∀ (rs : List Resource) (s : GvState) (page : Page) (q : Resource),
      q ∈ rs → q.ResourceType = "AWS::Lambda::Function" →
      ∃ v, TraceEvent.visitedLambda stackName q.LogicalResourceId v
            ∈ (runList env runChild stackName nested rs s page).2.2 := by
  intro rs
  induction rs with
  | nil =>
    intro s page q hq hty
    exact absurd hq (List.not_mem_nil q)
  | cons r rest ih =>
    intro s page q hq hty
    rcases List.mem_cons.mp hq with heq | hq'
    · subst heq
      refine ⟨env.lambdaConfig q.PhysicalResourceId, ?_⟩
      rcases hcfg : env.lambdaConfig q.PhysicalResourceId with _ | vars <;>
        simp [runList, runStep, processLambda, hty, hcfg, List.mem_append]
    · simp only [runList]
      obtain ⟨v, hv⟩ := ih (runStep env runChild stackName nested r s page).1
        (runStep env runChild stackName nested r s page).2.1 q hq' hty
      exact ⟨v, List.mem_append.mpr (Or.inr hv)⟩

theorem listStackResources_visits (env : CfnEnv) (fuel : Nat) (name : String)
    (s : GvState) (q : Resource) (hf : 1 ≤ fuel)
    (hq : q ∈ env.stackResources name)
    (hty : q.ResourceType = "AWS::Lambda::Function") :
    ∃ v, TraceEvent.visitedLambda name q.LogicalResourceId v
          ∈ (listStackResources env fuel name true s).2 := by
  match fuel, hf with
  | f + 1, _ =>
    obtain ⟨v, hv⟩ := runList_visits env
      (fun c st => listStackResources env f c true st) name true
      (env.stackResources name) s [] q hq hty
    refine ⟨v, ?_⟩
    show TraceEvent.visitedLambda name q.LogicalResourceId v
        ∈ (runList env (fun c st => listStackResources env f c true st) name
            true (env.stackResources name) s []).2.2
          ++ [TraceEvent.completedStack name
              (runList env (fun c st => listStackResources env f c true st)
                name true (env.stackResources name) s []).1.functionCount]
    exact List.mem_append.mpr (Or.inl hv)

/--
C9: when stack P's resource listing contains a nested-stack resource whose
physical ID points at child stack C, the parent's trace is the child's full
sub-trace embedded strictly before the parent's completion-summary event;
with at least one unit of fuel left for the child, every Lambda resource of
C is visited (and counted) within that sub-trace — i.e. the child stack is
fully processed before the parent's summary is logged, because the
recursion is awaited synchronously.
-/
theorem C9_nested_child_before_parent_summary (env : CfnEnv) (f : Nat)
    (P C : String) (s : GvState) (rs₁ rs₂ : List Resource) (r : Resource)
    (hres : env.stackResources P = rs₁ ++ r :: rs₂)
    (hty : r.ResourceType = "AWS::CloudFormation::Stack")
    (hchild : childStackName r.PhysicalResourceId = some C) :
    ∃ (s' : GvState) (pre post : List TraceEvent) (n : Nat),
      (listStackResources env (f + 1) P true s).2
        = pre ++ (listStackResources env f C true s').2 ++ post
            ++ [TraceEvent.completedStack P n]
      ∧ (1 ≤ f → ∀ q ∈ env.stackResources C,
          q.ResourceType = "AWS::Lambda::Function" →
          ∃ v, TraceEvent.visitedLambda C q.LogicalResourceId v
                ∈ (listStackResources env f C true s').2) := by
  obtain ⟨s', pre, post, heq⟩ := runList_trace_split env
    (fun c st => listStackResources env f c true st) P r C hty hchild
    rs₁ rs₂ s []
  refine ⟨s', pre, post,
    (runList env (fun c st => listStackResources env f c true st) P true
      (rs₁ ++ r :: rs₂) s []).1.functionCount, ?_, ?_⟩
  · simp only [listStackResources]
    rw [hres, heq]
  · intro hf q hq hqty
    exact listStackResources_visits env f C s' q hf hq hqty

/-! ### Concrete environments exercising C8 and C9 -/

def c8env : CfnEnv where
  stackResources := fun n =>
    if n = "top" then
      [⟨"AWS::Lambda::Function", "pf1", "F1"⟩,
       ⟨"AWS::Lambda::Function", "pf2", "F2"⟩]
    else []
  lambdaConfig := fun p =>
    if p = "pf1" then some [("X", "1")]
    else if p = "pf2" then some [("X", "2")]
    else none

theorem C8_last_write_wins_witness :
    ((listStackResources c8env 1 "top" true initialGvState).2
      = [] ++ [.visitedLambda "top" "F1" (some [("X", "1")])] ++ []
          ++ [.visitedLambda "top" "F2" (some [("X", "2")])]
          ++ [.completedStack "top" 2])
  ∧ ((listStackResources c8env 1 "top" true initialGvState).1).merged "X"
      = some "2" :=
  ⟨by decide,
   C8_last_write_wins c8env 1 "top" [] [] [.completedStack "top" 2] "top" "top"
     "F1" "F2" [("X", "1")] [("X", "2")] "X" "1" "2"
     (by decide) (by decide) (by decide) (by decide) (by decide)⟩

def c9env : CfnEnv where
  stackResources := fun n =>
    if n = "parent" then
      [⟨"AWS::CloudFormation::Stack",
        "arn:aws:cloudformation:us-east-1:1:stack/childstk/uuid", "ChildRes"⟩]
    else if n = "childstk" then
      [⟨"AWS::Lambda::Function", "pc1", "G1"⟩]
    else []
  lambdaConfig := fun p => if p = "pc1" then some [("Y", "9")] else none

theorem C9_nested_child_before_parent_summary_witness :
    ∃ (s' : GvState) (pre post : List TraceEvent) (n : Nat),
      (listStackResources c9env (1 + 1) "parent" true initialGvState).2
        = pre ++ (listStackResources c9env 1 "childstk" true s').2 ++ post
            ++ [TraceEvent.completedStack "parent" n]
      ∧ (1 ≤ 1 → ∀ q ∈ c9env.stackResources "childstk",
          q.ResourceType = "AWS::Lambda::Function" →
          ∃ v, TraceEvent.visitedLambda "childstk" q.LogicalResourceId v
                ∈ (listStackResources c9env 1 "childstk" true s').2) :=
  C9_nested_child_before_parent_summary c9env 1 "parent" "childstk"
    initialGvState [] []
    ⟨"AWS::CloudFormation::Stack",
      "arn:aws:cloudformation:us-east-1:1:stack/childstk/uuid", "ChildRes"⟩
    (by decide) (by decide) (by decide)

end ImportDynamoDBLocal
